import Mathlib

/-!
Shallow embedding of the CHIP-8 emulator in `src/src/main.rs`.

Machine integers are modelled as `Nat` with explicit `% 2^w` where the Rust
code can wrap (u8 arithmetic uses `% 256`, u16 arithmetic `% 65536`).
Fixed arrays (`memory : [u8; 4096]`, `registers : [u8; 16]`, `stack : [u16; 16]`,
`frame_buffer : [[u8; 32]; 64]`, `keyboard_keys : [bool; 16]`) are modelled as
total functions from the index type; every array access whose index can exceed
the array length in the source is guarded, and an out-of-range access yields
`ChipError.indexOutOfBounds`, modelling the Rust bounds-check panic.
`eprintln!` diagnostics are modelled by appending the printed string to a
`stderr` log carried in the state.
-/

/-- Decoder field extractors, from `main.rs` lines 11-33.  Source:
`(opcode & 0xF000) >> 12` and friends. -/
def get_byte_0xF000 (opcode : Nat) : Nat := (opcode &&& 0xF000) >>> 12

def get_byte_0x0F00 (opcode : Nat) : Nat := (opcode &&& 0x0F00) >>> 8

def get_byte_0x00F0 (opcode : Nat) : Nat := (opcode &&& 0x00F0) >>> 4

def get_byte_0x000F (opcode : Nat) : Nat := opcode &&& 0x000F

def get_bytes_0x0FFF (opcode : Nat) : Nat := opcode &&& 0x0FFF

def get_bytes_0x00FF (opcode : Nat) : Nat := opcode &&& 0x00FF

/-- Pointwise update of a one-dimensional array modelled as a function. -/
def upd1 (f : Nat → Nat) (i v : Nat) : Nat → Nat :=
  fun j => if j = i then v else f j

/-- Pointwise update of the two-dimensional frame buffer. -/
def upd2 (f : Nat → Nat → Nat) (i j v : Nat) : Nat → Nat → Nat :=
  fun a b => if a = i ∧ b = j then v else f a b

/-- Pointwise update of the boolean keyboard array. -/
def updB (f : Nat → Bool) (i : Nat) (v : Bool) : Nat → Bool :=
  fun j => if j = i then v else f j

/-- Rust `u8::wrapping_sub` on byte values: `a.wrapping_sub b`. -/
def wsub8 (a b : Nat) : Nat := (a + 256 - b % 256) % 256

/-- Failure modes of the source program observable as process aborts:
a Rust panic from an out-of-bounds array index, or the busy-wait loop of
`Fx0A` spinning forever because no key flag is set. -/
inductive ChipError where
  | indexOutOfBounds : ChipError
  | infiniteLoop : ChipError
deriving DecidableEq

/-- The machine state, from `struct ChipContext` in `main.rs` lines 65-80,
plus a `stderr` log for `eprintln!` diagnostics and an `rng` stream feeding
the `rand::random()` call of the `Cxkk` instruction. -/
structure ChipContext where
  memory : Nat → Nat
  registers : Nat → Nat
  stack : Nat → Nat
  I : Nat
  PC : Nat
  SP : Nat
  delay_reg : Nat
  sound_reg : Nat
  draw_flag : Bool
  frame_buffer : Nat → Nat → Nat
  keyboard_keys : Nat → Bool
  stderr : List String
  rng : List Nat

/-- The 16 five-byte font sprites (`ChipContext::SPRITES`), flattened in the
order the nested `reset` loops write them. -/
def SPRITES : List Nat :=
  [0xF0, 0x90, 0x90, 0x90, 0xF0,
   0x20, 0x60, 0x20, 0x20, 0x70,
   0xF0, 0x10, 0xF0, 0x80, 0xF0,
   0xF0, 0x10, 0xF0, 0x10, 0xF0,
   0x90, 0x90, 0xF0, 0x10, 0x10,
   0xF0, 0x80, 0xF0, 0x10, 0xF0,
   0xF0, 0x80, 0xF0, 0x90, 0xF0,
   0xF0, 0x10, 0x20, 0x40, 0x40,
   0xF0, 0x90, 0xF0, 0x90, 0xF0,
   0xF0, 0x90, 0xF0, 0x10, 0xF0,
   0xF0, 0x90, 0xF0, 0x90, 0x90,
   0xE0, 0x90, 0xE0, 0x90, 0xE0,
   0xF0, 0x80, 0x80, 0x80, 0xF0,
   0xE0, 0x90, 0x90, 0x90, 0xE0,
   0xF0, 0x80, 0xF0, 0x80, 0xF0,
   0xF0, 0x80, 0xF0, 0x80, 0x80]

/-- The font-loading loop of `reset`: write the bytes consecutively starting
at the given index. -/
def loadFont (mem : Nat → Nat) (idx : Nat) : List Nat → (Nat → Nat)
  | [] => mem
  | b :: bs => loadFont (upd1 mem idx b) (idx + 1) bs

/-- `ChipContext::reset` (`main.rs` lines 103-130). -/
def reset : ChipContext where
  memory := loadFont (fun _ => 0) 0x050 SPRITES
  registers := fun _ => 0
  stack := fun _ => 0
  I := 0x050
  PC := 0x200
  SP := 0
  delay_reg := 0
  sound_reg := 0
  draw_flag := false
  frame_buffer := fun _ _ => 0
  keyboard_keys := fun _ => false
  stderr := []
  rng := []

/-- Byte-copy loop of `load_program` (`main.rs` lines 132-137):
`self.memory[self.PC as usize + index] = *byte`.  An index reaching past the
4096-byte memory is the Rust bounds-check panic. -/
def loadGo (mem : Nat → Nat) (base : Nat) : Nat → List Nat → Except ChipError (Nat → Nat)
  | _, [] => .ok mem
  | idx, b :: bs =>
      if base + idx < 4096 then loadGo (upd1 mem (base + idx) b) base (idx + 1) bs
      else .error .indexOutOfBounds

/-- `ChipContext::load_program`.  The source reads the ROM bytes from disk
via `std::fs::read`; the byte sequence is passed here directly. -/
def load_program (ctx : ChipContext) (file : List Nat) : Except ChipError ChipContext :=
  match loadGo ctx.memory ctx.PC 0 file with
  | .ok m => .ok { ctx with memory := m }
  | .error e => .error e

/-- `ChipContext::fetch_opcode` (`main.rs` lines 139-144):
`memory[PC] << 8 | memory[PC + 1]`, with the bounds-check panic when
`PC + 1` is outside memory. -/
def fetch_opcode (ctx : ChipContext) : Except ChipError Nat :=
  if ctx.PC + 1 < 4096 then
    .ok (ctx.memory ctx.PC <<< 8 ||| ctx.memory (ctx.PC + 1))
  else .error .indexOutOfBounds

/-- Inner `xline` loop of the draw instruction (`main.rs` lines 426-434),
over the list of remaining column indices.  `yc` is the already-reduced
destination row `(y + yline) % 32`.  Returns the updated frame buffer and
the updated VF accumulator. -/
def drawRow (pixel x yc : Nat) : List Nat → (Nat → Nat → Nat) → Nat → ((Nat → Nat → Nat) × Nat)
  | [], fb, vf => (fb, vf)
  | c :: cs, fb, vf =>
      if pixel &&& (0x80 >>> c) ≠ 0 then
        let px := (x + c) % 64
        let vf1 := if fb px yc = 1 then 1 else vf
        let fb1 := upd2 fb px yc (fb px yc ^^^ 1)
        drawRow pixel x yc cs fb1 vf1
      else drawRow pixel x yc cs fb vf

/-- Outer `yline` loop of the draw instruction (`main.rs` lines 424-435),
over the list of remaining row indices.  Each row reads the sprite byte
`memory[(I + yline) as usize]` (a u16 addition, hence the `% 65536`), with
the bounds-check panic when the index reaches past memory. -/
def drawRowsGo (mem : Nat → Nat) (Iv x y : Nat) :
    List Nat → (Nat → Nat → Nat) → Nat → Except ChipError ((Nat → Nat → Nat) × Nat)
  | [], fb, vf => .ok (fb, vf)
  | r :: rs, fb, vf =>
      let idx := (Iv + r) % 65536
      if idx < 4096 then
        let p := drawRow (mem idx) x ((y + r) % 32) (List.range 8) fb vf
        drawRowsGo mem Iv x y rs p.1 p.2
      else .error .indexOutOfBounds

/-- One scan pass of the `Fx0A` busy-wait loop (`main.rs` lines 486-494):
the loop writes `Vx = i` for every set flag, so the last (highest) set
index wins; `none` when no flag is set. -/
def waitKeyScan (keys : Nat → Bool) : Option Nat :=
  (List.range 16).foldl (fun acc i => if keys i then some i else acc) none

/-- Store loop of `Fx55` (`main.rs` lines 537-541). -/
def storeRegsGo (regs : Nat → Nat) (Iv : Nat) : List Nat → (Nat → Nat) → Except ChipError (Nat → Nat)
  | [], mem => .ok mem
  | i :: is, mem =>
      if Iv + i < 4096 then storeRegsGo regs Iv is (upd1 mem (Iv + i) (regs i))
      else .error .indexOutOfBounds

/-- Load loop of `Fx65` (`main.rs` lines 546-550). -/
def loadRegsGo (mem : Nat → Nat) (Iv : Nat) : List Nat → (Nat → Nat) → Except ChipError (Nat → Nat)
  | [], regs => .ok regs
  | i :: is, regs =>
      if Iv + i < 4096 then loadRegsGo mem Iv is (upd1 regs i (mem (Iv + i)))
      else .error .indexOutOfBounds

/-- Family `0x0` (`main.rs` lines 150-178): clear display, return, or the
unrecognized-sub-opcode diagnostic (which does not advance PC). -/
def execFam0 (ctx : ChipContext) (opcode : Nat) : Except ChipError ChipContext :=
  let kk := get_bytes_0x00FF opcode
  if kk = 0xE0 then
    .ok { ctx with
      frame_buffer := fun a b => if a < 64 ∧ b < 32 then 0 else ctx.frame_buffer a b,
      PC := (ctx.PC + 2) % 65536 }
  else if kk = 0xEE then
    if ctx.SP = 0 then .error .indexOutOfBounds
    else if ctx.SP - 1 < 16 then
      .ok { ctx with SP := ctx.SP - 1, PC := (ctx.stack (ctx.SP - 1) + 2) % 65536 }
    else .error .indexOutOfBounds
  else
    .ok { ctx with stderr := ctx.stderr ++ [ "non existing 0x0xxx opcode" ] }

/-- Family `0x1`, jump (`main.rs` lines 184-187): sets the redraw flag and
jumps. -/
def execJump (ctx : ChipContext) (opcode : Nat) : Except ChipError ChipContext :=
  .ok { ctx with draw_flag := true, PC := get_bytes_0x0FFF opcode }

/-- Family `0x2`, call (`main.rs` lines 193-200): `stack[SP] = PC` (panics
when SP is already 16), `SP += 1`, a logged-but-non-fatal overflow check, and
`PC = nnn`. -/
def execCall (ctx : ChipContext) (opcode : Nat) : Except ChipError ChipContext :=
  if ctx.SP < 16 then
    let sp := (ctx.SP + 1) % 256
    .ok { ctx with
      stack := upd1 ctx.stack ctx.SP ctx.PC,
      SP := sp,
      stderr := if 0xF < sp then ctx.stderr ++ [ "stack overflow" ] else ctx.stderr,
      PC := get_bytes_0x0FFF opcode }
  else .error .indexOutOfBounds

/-- Family `0x8`, register-register ALU operations (`main.rs` lines 267-367).
All sub-opcodes fall through to the common `PC += 2`. -/
def execFam8 (ctx : ChipContext) (opcode : Nat) : Except ChipError ChipContext :=
  let X := get_byte_0x0F00 opcode
  let Y := get_byte_0x00F0 opcode
  let n := get_byte_0x000F opcode
  let step := fun (c : ChipContext) => { c with PC := (c.PC + 2) % 65536 }
  if n = 0x0 then
    .ok (step { ctx with registers := upd1 ctx.registers X (ctx.registers Y) })
  else if n = 0x1 then
    .ok (step { ctx with registers := upd1 ctx.registers X (ctx.registers X ||| ctx.registers Y) })
  else if n = 0x2 then
    .ok (step { ctx with registers := upd1 ctx.registers X (ctx.registers X &&& ctx.registers Y) })
  else if n = 0x3 then
    .ok (step { ctx with registers := upd1 ctx.registers X (ctx.registers X ^^^ ctx.registers Y) })
  else if n = 0x4 then
    let s := ctx.registers X + ctx.registers Y
    if 255 < s then
      .ok (step { ctx with registers := upd1 (upd1 ctx.registers X (s % 256)) 0xF 1 })
    else
      .ok (step { ctx with registers := upd1 (upd1 ctx.registers X s) 0xF 0 })
  else if n = 0x5 then
    let old := ctx.registers X
    let r1 := upd1 ctx.registers X (wsub8 (ctx.registers X) (ctx.registers Y))
    let flag := if r1 Y ≤ old then 1 else 0
    .ok (step { ctx with registers := upd1 r1 0xF flag })
  else if n = 0x6 then
    let old := ctx.registers X
    let r1 := upd1 ctx.registers X (ctx.registers X >>> 1)
    .ok (step { ctx with registers := upd1 r1 0xF (old &&& 0x1) })
  else if n = 0x7 then
    let r1 := upd1 ctx.registers X (wsub8 (ctx.registers Y) (ctx.registers X))
    let flag := if r1 X ≤ r1 Y then 1 else 0
    .ok (step { ctx with registers := upd1 r1 0xF flag })
  else if n = 0xE then
    let old := ctx.registers X
    let r1 := upd1 ctx.registers X ((ctx.registers X <<< 1) % 256)
    .ok (step { ctx with registers := upd1 r1 0xF ((old &&& 0x80) >>> 7) })
  else
    .ok (step { ctx with stderr := ctx.stderr ++ [ "Non existing 0x8xxx opcode" ] })

/-- Draw instruction, family `0xD` (`main.rs` lines 416-437).  The source
zeroes VF before the loops and raises it on collision during them; since the
loops never read `registers`, this is modelled by accumulating VF from 0 and
writing it once at the end. -/
def execFamD (ctx : ChipContext) (opcode : Nat) : Except ChipError ChipContext :=
  let x := ctx.registers (get_byte_0x0F00 opcode)
  let y := ctx.registers (get_byte_0x00F0 opcode)
  let n := get_byte_0x000F opcode
  match drawRowsGo ctx.memory ctx.I x y (List.range n) ctx.frame_buffer 0 with
  | .ok p =>
      .ok { ctx with
        frame_buffer := p.1,
        registers := upd1 ctx.registers 0xF p.2,
        PC := (ctx.PC + 2) % 65536 }
  | .error e => .error e

/-- Family `0xE`, key skips (`main.rs` lines 439-469).  `keyboard_keys` is
indexed by the *value* of Vx, which panics when that value is 16 or more.
`Ex9E` clears the checked flag after a successful check; all sub-opcodes,
recognized or not, fall through to the common `PC += 2`. -/
def execFamE (ctx : ChipContext) (opcode : Nat) : Except ChipError ChipContext :=
  let X := get_byte_0x0F00 opcode
  let kk := get_bytes_0x00FF opcode
  let step := fun (c : ChipContext) => { c with PC := (c.PC + 2) % 65536 }
  if kk = 0x9E then
    if ctx.registers X < 16 then
      if ctx.keyboard_keys (ctx.registers X) then
        .ok (step { ctx with
          PC := (ctx.PC + 2) % 65536,
          keyboard_keys := updB ctx.keyboard_keys (ctx.registers X) false })
      else .ok (step ctx)
    else .error .indexOutOfBounds
  else if kk = 0xA1 then
    if ctx.registers X < 16 then
      if ctx.keyboard_keys (ctx.registers X) then .ok (step ctx)
      else .ok (step { ctx with PC := (ctx.PC + 2) % 65536 })
    else .error .indexOutOfBounds
  else
    .ok (step { ctx with stderr := ctx.stderr ++ [ "non existing 0xExxx opcode" ] })

/-- Family `0xF` (`main.rs` lines 471-558).  All sub-opcodes, recognized or
not, fall through to the common `PC += 2`.  The `Fx0A` busy-wait loop spins
forever when no key flag is set (nothing inside `exec_opcode` can change the
flags), modelled as `ChipError.infiniteLoop`. -/
def execFamF (ctx : ChipContext) (opcode : Nat) : Except ChipError ChipContext :=
  let X := get_byte_0x0F00 opcode
  let kk := get_bytes_0x00FF opcode
  let step := fun (c : ChipContext) => { c with PC := (c.PC + 2) % 65536 }
  if kk = 0x07 then
    .ok (step { ctx with registers := upd1 ctx.registers X ctx.delay_reg })
  else if kk = 0x0A then
    match waitKeyScan ctx.keyboard_keys with
    | some i => .ok (step { ctx with registers := upd1 ctx.registers X i })
    | none => .error .infiniteLoop
  else if kk = 0x15 then
    .ok (step { ctx with delay_reg := ctx.registers X })
  else if kk = 0x18 then
    .ok (step { ctx with sound_reg := ctx.registers X })
  else if kk = 0x1E then
    .ok (step { ctx with I := (ctx.I + ctx.registers X) % 65536 })
  else if kk = 0x29 then
    .ok (step { ctx with I := (0x050 + (5 * ctx.registers X) % 256) % 65536 })
  else if kk = 0x33 then
    let i1 := (ctx.I + 1) % 65536
    let i2 := (ctx.I + 2) % 65536
    if ctx.I < 4096 ∧ i1 < 4096 ∧ i2 < 4096 then
      .ok (step { ctx with
        memory := upd1 (upd1 (upd1 ctx.memory ctx.I (ctx.registers X / 100))
          i1 (ctx.registers X / 10 % 10)) i2 (ctx.registers X % 10) })
    else .error .indexOutOfBounds
  else if kk = 0x55 then
    match storeRegsGo ctx.registers ctx.I (List.range (X + 1)) ctx.memory with
    | .ok m => .ok (step { ctx with memory := m })
    | .error e => .error e
  else if kk = 0x65 then
    match loadRegsGo ctx.memory ctx.I (List.range (X + 1)) ctx.registers with
    | .ok r => .ok (step { ctx with registers := r })
    | .error e => .error e
  else
    .ok (step { ctx with stderr := ctx.stderr ++ [ "non existing 0xFxxx opcode" ] })

/-- Dispatch body of `ChipContext::exec_opcode` (`main.rs` lines 149-564),
given the already-fetched instruction word. -/
def execInstr (ctx : ChipContext) (opcode : Nat) : Except ChipError ChipContext :=
  let fam := get_byte_0xF000 opcode
  if fam = 0 then execFam0 ctx opcode
  else if fam = 1 then execJump ctx opcode
  else if fam = 2 then execCall ctx opcode
  else if fam = 3 then
    .ok { ctx with PC := if get_bytes_0x00FF opcode = ctx.registers (get_byte_0x0F00 opcode)
      then (ctx.PC + 4) % 65536 else (ctx.PC + 2) % 65536 }
  else if fam = 4 then
    .ok { ctx with PC := if get_bytes_0x00FF opcode ≠ ctx.registers (get_byte_0x0F00 opcode)
      then (ctx.PC + 4) % 65536 else (ctx.PC + 2) % 65536 }
  else if fam = 5 then
    .ok { ctx with PC := if ctx.registers (get_byte_0x0F00 opcode) = ctx.registers (get_byte_0x00F0 opcode)
      then (ctx.PC + 4) % 65536 else (ctx.PC + 2) % 65536 }
  else if fam = 6 then
    .ok { ctx with
      registers := upd1 ctx.registers (get_byte_0x0F00 opcode) (get_bytes_0x00FF opcode),
      PC := (ctx.PC + 2) % 65536 }
  else if fam = 7 then
    .ok { ctx with
      registers := upd1 ctx.registers (get_byte_0x0F00 opcode)
        ((ctx.registers (get_byte_0x0F00 opcode) + get_bytes_0x00FF opcode) % 256),
      PC := (ctx.PC + 2) % 65536 }
  else if fam = 8 then execFam8 ctx opcode
  else if fam = 9 then
    .ok { ctx with PC := if ctx.registers (get_byte_0x0F00 opcode) ≠ ctx.registers (get_byte_0x00F0 opcode)
      then (ctx.PC + 4) % 65536 else (ctx.PC + 2) % 65536 }
  else if fam = 0xA then
    .ok { ctx with
      I := get_bytes_0x0FFF opcode,
      PC := (ctx.PC + 2) % 65536 }
  else if fam = 0xB then
    .ok { ctx with PC := (get_bytes_0x0FFF opcode + ctx.registers 0) % 65536 }
  else if fam = 0xC then
    let r := match ctx.rng with | b :: _ => b % 256 | [] => 0
    .ok { ctx with
      registers := upd1 ctx.registers (get_byte_0x0F00 opcode) (r &&& get_bytes_0x00FF opcode),
      rng := ctx.rng.tail,
      PC := (ctx.PC + 2) % 65536 }
  else if fam = 0xD then execFamD ctx opcode
  else if fam = 0xE then execFamE ctx opcode
  else if fam = 0xF then execFamF ctx opcode
  else .ok { ctx with stderr := ctx.stderr ++ [ "Non existing opcode" ] }

/-- `ChipContext::exec_opcode`: fetch, then dispatch. -/
def exec_opcode (ctx : ChipContext) : Except ChipError ChipContext :=
  match fetch_opcode ctx with
  | .ok opcode => execInstr ctx opcode
  | .error e => .error e

/-- `ChipContext::update_timers` (`main.rs` lines 567-574). -/
def update_timers (ctx : ChipContext) : ChipContext :=
  let c1 := if 0 < ctx.delay_reg then { ctx with delay_reg := ctx.delay_reg - 1 } else ctx
  if 0 < c1.sound_reg then { c1 with sound_reg := c1.sound_reg - 1 } else c1

/-- Iterated timer ticks. -/
def updateTimersN : Nat → ChipContext → ChipContext
  | 0, c => c
  | n + 1, c => updateTimersN n (update_timers c)

/-- One gated iteration of the driving loop in `main` (`main.rs` lines
737-744): execute one instruction, then tick the timers once. -/
def mainStep (ctx : ChipContext) : Except ChipError ChipContext :=
  match exec_opcode ctx with
  | .ok c => .ok (update_timers c)
  | .error e => .error e

/-- Iterated driving-loop steps. -/
def mainStepN : Nat → ChipContext → Except ChipError ChipContext
  | 0, c => .ok c
  | n + 1, c =>
      match mainStep c with
      | .ok c' => mainStepN n c'
      | .error e => .error e

/-- Iterated instruction execution without timer ticks. -/
def execN : Nat → ChipContext → Except ChipError ChipContext
  | 0, c => .ok c
  | n + 1, c =>
      match exec_opcode c with
      | .ok c' => execN n c'
      | .error e => .error e

/-- Extract the success state, with a default for the error case. -/
def okOr (d : ChipContext) : Except ChipError ChipContext → ChipContext
  | .ok c => c
  | .error _ => d

/-- Observation: stack pointer of a non-failed result. -/
def spOf : Except ChipError ChipContext → Option Nat
  | .ok c => some c.SP
  | .error _ => none

/-- Observation: program counter of a non-failed result. -/
def pcOf : Except ChipError ChipContext → Option Nat
  | .ok c => some c.PC
  | .error _ => none

/-- Observation: delay timer of a non-failed result. -/
def delayOf : Except ChipError ChipContext → Option Nat
  | .ok c => some c.delay_reg
  | .error _ => none

/-- Observation: one register of a non-failed result. -/
def regOf (e : Except ChipError ChipContext) (i : Nat) : Option Nat :=
  match e with
  | .ok c => some (c.registers i)
  | .error _ => none

/-- Observation: the error of a failed result. -/
def errOf : Except ChipError ChipContext → Option ChipError
  | .ok _ => none
  | .error e => some e

/-- Observation: the stderr log of a non-failed result. -/
def stderrOf : Except ChipError ChipContext → Option (List String)
  | .ok c => some c.stderr
  | .error _ => none

/-- Observation: the redraw flag of a non-failed result. -/
def flagOf : Except ChipError ChipContext → Option Bool
  | .ok c => some c.draw_flag
  | .error _ => none

/-- Reset state with the two-byte program `22 00` loaded at 0x200: the
instruction at 0x200 is `call 0x200`, so every executed instruction is a call
back to 0x200 and no return ever runs. -/
def callLoopState : ChipContext := okOr reset (load_program reset [0x22, 0x00])

/-- Reset state with the program `12 00` (`jump 0x200`, a tight self-loop)
loaded at 0x200, and the delay timer preset to 5. -/
def jumpLoopState : ChipContext :=
  { okOr reset (load_program reset [0x12, 0x00]) with delay_reg := 5 }

/-- Reset state with V0 = 7 and VF = 2, used to exercise `subn` with X = F. -/
def subnState : ChipContext :=
  { reset with registers := upd1 (upd1 reset.registers 0x0 7) 0xF 2 }

/-- Reset state with key flags 2 and 5 set. -/
def twoKeysState : ChipContext :=
  { reset with keyboard_keys := fun i => i == 2 || i == 5 }

/-- Reset state with only key flag 0 set. -/
def oneKeyState : ChipContext :=
  { reset with keyboard_keys := fun i => i == 0 }

/-- Reset state with the unrecognized family-0 word `00 FF` at 0x200. -/
def unrec0State : ChipContext := okOr reset (load_program reset [0x00, 0xFF])

/-- Reset state with the unrecognized family-8 word `80 08` at 0x200. -/
def unrec8State : ChipContext := okOr reset (load_program reset [0x80, 0x08])

/-- Reset state with the clear-display word `00 E0` at 0x200. -/
def clsState : ChipContext := okOr reset (load_program reset [0x00, 0xE0])

/-- Reset state with the draw word `D0 01` at 0x200 (draws one sprite byte,
read from the font area at I = 0x50). -/
def drawState : ChipContext := okOr reset (load_program reset [0xD0, 0x01])

/-- Reset state with `call 0x300` at 0x200 and `ret` (`00 EE`) at 0x300. -/
def callRetState : ChipContext :=
  okOr reset (load_program reset ([0x23, 0x00] ++ List.replicate 254 0 ++ [0x00, 0xEE]))

/-- The call-loop state with the stack pointer forced to capacity. -/
def fullStackState : ChipContext := { callLoopState with SP := 16 }

/-! ### Helper lemmas -/

theorem upd1_same (f : Nat → Nat) (i v : Nat) : upd1 f i v i = v := by
  simp [upd1]

theorem upd1_other (f : Nat → Nat) (i v : Nat) {j : Nat} (h : j ≠ i) :
    upd1 f i v j = f j := by
  simp [upd1, h]

theorem upd2_same (f : Nat → Nat → Nat) (i j v : Nat) : upd2 f i j v i j = v := by
  simp [upd2]

theorem upd2_other (f : Nat → Nat → Nat) (i j v : Nat) {a b : Nat}
    (h : ¬(a = i ∧ b = j)) : upd2 f i j v a b = f a b := by
  simp only [upd2, if_neg h]

theorem execInstr_eq_fam0 (ctx : ChipContext) (op : Nat)
    (h : get_byte_0xF000 op = 0) : execInstr ctx op = execFam0 ctx op := by
  simp [execInstr, h]

theorem execInstr_eq_jump (ctx : ChipContext) (op : Nat)
    (h : get_byte_0xF000 op = 1) : execInstr ctx op = execJump ctx op := by
  simp [execInstr, h]

theorem execInstr_eq_call (ctx : ChipContext) (op : Nat)
    (h : get_byte_0xF000 op = 2) : execInstr ctx op = execCall ctx op := by
  simp [execInstr, h]

theorem execInstr_eq_fam8 (ctx : ChipContext) (op : Nat)
    (h : get_byte_0xF000 op = 8) : execInstr ctx op = execFam8 ctx op := by
  simp [execInstr, h]

theorem execInstr_eq_famD (ctx : ChipContext) (op : Nat)
    (h : get_byte_0xF000 op = 0xD) : execInstr ctx op = execFamD ctx op := by
  simp [execInstr, h]

theorem execInstr_eq_famE (ctx : ChipContext) (op : Nat)
    (h : get_byte_0xF000 op = 0xE) : execInstr ctx op = execFamE ctx op := by
  simp [execInstr, h]

theorem execInstr_eq_famF (ctx : ChipContext) (op : Nat)
    (h : get_byte_0xF000 op = 0xF) : execInstr ctx op = execFamF ctx op := by
  simp [execInstr, h]

theorem exec_opcode_eq (ctx : ChipContext) (h : ctx.PC + 1 < 4096) :
    exec_opcode ctx = execInstr ctx (ctx.memory ctx.PC <<< 8 ||| ctx.memory (ctx.PC + 1)) := by
  unfold exec_opcode fetch_opcode
  rw [if_pos h]

theorem update_timers_fields (ctx : ChipContext) :
    (update_timers ctx).delay_reg = ctx.delay_reg - 1 ∧
    (update_timers ctx).sound_reg = ctx.sound_reg - 1 := by
  by_cases hd : 0 < ctx.delay_reg <;> by_cases hs : 0 < ctx.sound_reg <;>
    simp [update_timers, hd, hs] <;> omega

theorem updateTimersN_fields (N : Nat) : ∀ ctx : ChipContext,
    (updateTimersN N ctx).delay_reg = ctx.delay_reg - min N ctx.delay_reg ∧
    (updateTimersN N ctx).sound_reg = ctx.sound_reg - min N ctx.sound_reg := by
  induction N with
  | zero => intro ctx; simp [updateTimersN]
  | succ n ih =>
      intro ctx
      have h := ih (update_timers ctx)
      have hf := update_timers_fields ctx
      unfold updateTimersN
      constructor
      · rw [h.1, hf.1]; omega
      · rw [h.2, hf.2]; omega

theorem loadGo_err (base : Nat) : ∀ (bs : List Nat) (idx : Nat) (mem : Nat → Nat),
    0 < bs.length → 4096 < base + idx + bs.length →
    loadGo mem base idx bs = .error .indexOutOfBounds := by
  intro bs
  induction bs with
  | nil => intro idx mem h _; simp at h
  | cons b bs ih =>
      intro idx mem _ hlen
      unfold loadGo
      by_cases hin : base + idx < 4096
      · rw [if_pos hin]
        apply ih
        · simp at hlen ⊢; omega
        · simp at hlen ⊢; omega
      · rw [if_neg hin]

/-! ### C9: oversized ROM load fails rather than writing past memory -/

/-- C9: for every ROM byte sequence longer than 4096 - 512 bytes, loading at
the reset program counter 0x200 surfaces a failure (the bounds-check panic on
the first out-of-range byte) instead of writing past the end of the 4096-byte
memory. -/
theorem C9_rom_too_large (ctx : ChipContext) (file : List Nat)
    (hpc : ctx.PC = 0x200) (hlen : 4096 - 512 < file.length) :
    load_program ctx file = .error .indexOutOfBounds := by
  unfold load_program
  rw [hpc, loadGo_err 0x200 file 0 ctx.memory (by omega) (by omega)]

/-- Witness for C9: a concrete 3585-byte ROM fails to load. -/
theorem C9_rom_too_large_witness :
    load_program reset (List.replicate 3585 0) = .error .indexOutOfBounds :=
  C9_rom_too_large reset (List.replicate 3585 0) rfl
    (by rw [List.length_replicate]; omega)

/-! ### C2: timer decay (corrected: coupled to instruction execution) -/

/-- C2 (amended): after N ticks of `update_timers` the delay and sound
registers each reduce by min(N, current value), floored at 0; but in this
program a tick is not an independent clock: each gated iteration of the main
loop executes exactly one instruction and then ticks the timers once, so
timer decay equals the number of executed instructions. -/
theorem C2_timer_decay_coupled :
    (∀ (N : Nat) (ctx : ChipContext),
      (updateTimersN N ctx).delay_reg = ctx.delay_reg - min N ctx.delay_reg ∧
      (updateTimersN N ctx).sound_reg = ctx.sound_reg - min N ctx.sound_reg) ∧
    (∀ (ctx c : ChipContext), exec_opcode ctx = .ok c →
      mainStep ctx = .ok (update_timers c)) := by
  constructor
  · exact fun N ctx => updateTimersN_fields N ctx
  · intro ctx c h
    simp [mainStep, h]

/-- Witness for C2: the amended theorem applied at a concrete state. -/
theorem C2_timer_decay_coupled_witness :
    (updateTimersN 3 jumpLoopState).delay_reg = 5 - min 3 5 ∧
    mainStep jumpLoopState = .ok (update_timers (okOr reset (exec_opcode jumpLoopState))) :=
  ⟨(C2_timer_decay_coupled.1 3 jumpLoopState).1,
   C2_timer_decay_coupled.2 jumpLoopState (okOr reset (exec_opcode jumpLoopState)) rfl⟩

/-- Counterexample for C2 as stated: there is no independent timer clock in
this program; running the main loop for one gated iteration decays the preset
delay value 5 to 4, while running it for two iterations decays it to 3 — the
decay is exactly the number of instructions executed in the interval, not
independent of it. -/
theorem C2_timer_decay_cex :
    delayOf (mainStepN 1 jumpLoopState) = some 4 ∧
    delayOf (mainStepN 2 jumpLoopState) = some 3 ∧
    delayOf (mainStepN 1 jumpLoopState) ≠ delayOf (mainStepN 2 jumpLoopState) := by
  exact ⟨by decide, by decide, by decide⟩

/-! ### C3: stack overflow on the 17th consecutive call -/

/-- C3: a call attempted with SP already at capacity (SP = 16) aborts with a
surfaced failure (the bounds-check panic on the stack write) instead of
wrapping SP, and concretely: from reset with a self-call program, 16
consecutive calls reach SP = 16 (emitting the "stack overflow" diagnostic on
the 16th), and the 17th call fails rather than wrapping SP or corrupting the
stack. -/
theorem C3_stack_overflow :
    (∀ ctx : ChipContext, ctx.PC + 1 < 4096 →
      get_byte_0xF000 (ctx.memory ctx.PC <<< 8 ||| ctx.memory (ctx.PC + 1)) = 2 →
      ctx.SP = 16 →
      exec_opcode ctx = .error .indexOutOfBounds) ∧
    spOf (execN 16 callLoopState) = some 16 ∧
    stderrOf (execN 16 callLoopState) = some [ "stack overflow" ] ∧
    errOf (execN 17 callLoopState) = some .indexOutOfBounds := by
  refine ⟨?_, by decide, by decide, by decide⟩
  intro ctx hpc hfam hsp
  rw [exec_opcode_eq ctx hpc, execInstr_eq_call _ _ hfam]
  unfold execCall
  rw [if_neg (by omega)]

/-- Witness for C3: the general part applied to the concrete full-stack
state. -/
theorem C3_stack_overflow_witness :
    exec_opcode fullStackState = .error .indexOutOfBounds :=
  C3_stack_overflow.1 fullStackState (by decide) (by decide) (by decide)

theorem execCall_ok (ctx : ChipContext) (op : Nat) (h : ctx.SP < 16) :
    execCall ctx op = .ok { ctx with
      stack := upd1 ctx.stack ctx.SP ctx.PC,
      SP := (ctx.SP + 1) % 256,
      stderr := if 0xF < (ctx.SP + 1) % 256 then ctx.stderr ++ [ "stack overflow" ] else ctx.stderr,
      PC := get_bytes_0x0FFF op } := by
  unfold execCall
  rw [if_pos h]

theorem execFam0_ret (ctx : ChipContext) (op : Nat) (hkk : get_bytes_0x00FF op = 0xEE)
    (h0 : ctx.SP ≠ 0) (h1 : ctx.SP - 1 < 16) :
    execFam0 ctx op = .ok { ctx with
      SP := ctx.SP - 1,
      PC := (ctx.stack (ctx.SP - 1) + 2) % 65536 } := by
  unfold execFam0
  rw [hkk, if_neg (by decide), if_pos rfl, if_neg h0, if_pos h1]

theorem exec_ret (c : ChipContext) (hpc2 : c.PC + 1 < 4096)
    (hm0 : c.memory c.PC = 0x00) (hm1 : c.memory (c.PC + 1) = 0xEE)
    (h0 : c.SP ≠ 0) (h1 : c.SP - 1 < 16) :
    exec_opcode c = .ok { c with
      SP := c.SP - 1,
      PC := (c.stack (c.SP - 1) + 2) % 65536 } := by
  rw [exec_opcode_eq c hpc2, hm0, hm1,
    (by decide : ((0x00 : Nat) <<< 8 ||| 0xEE) = 0xEE),
    execInstr_eq_fam0 _ _ (by decide), execFam0_ret _ _ (by decide) h0 h1]

/-! ### C5: call/return round trip -/

/-- C5: from any state whose call site is fetchable and whose stack has room
(SP + 1 ≤ 16, i.e. SP ≤ 15), executing the call instruction fetched at the
call site and then the return instruction `00EE` located at the 12-bit call
target restores PC to call-site + 2 and leaves SP at its pre-call value. -/
theorem C5_call_ret (ctx : ChipContext) (addr : Nat)
    (hpc : ctx.PC + 1 < 4096)
    (hfam : get_byte_0xF000 (ctx.memory ctx.PC <<< 8 ||| ctx.memory (ctx.PC + 1)) = 2)
    (haddr : get_bytes_0x0FFF (ctx.memory ctx.PC <<< 8 ||| ctx.memory (ctx.PC + 1)) = addr)
    (hsp : ctx.SP ≤ 15)
    (ha : addr + 1 < 4096)
    (hm0 : ctx.memory addr = 0x00)
    (hm1 : ctx.memory (addr + 1) = 0xEE) :
    ∃ c1 c2, exec_opcode ctx = .ok c1 ∧ exec_opcode c1 = .ok c2 ∧
      c2.PC = ctx.PC + 2 ∧ c2.SP = ctx.SP := by
  have hsp' : ctx.SP < 16 := by omega
  have hmod : (ctx.SP + 1) % 256 = ctx.SP + 1 := Nat.mod_eq_of_lt (by omega)
  have h1 : exec_opcode ctx = .ok { ctx with
      stack := upd1 ctx.stack ctx.SP ctx.PC,
      SP := (ctx.SP + 1) % 256,
      stderr := if 0xF < (ctx.SP + 1) % 256 then ctx.stderr ++ [ "stack overflow" ] else ctx.stderr,
      PC := addr } := by
    rw [exec_opcode_eq ctx hpc, execInstr_eq_call _ _ hfam, execCall_ok _ _ hsp', haddr]
  have h2 := exec_ret { ctx with
      stack := upd1 ctx.stack ctx.SP ctx.PC,
      SP := (ctx.SP + 1) % 256,
      stderr := if 0xF < (ctx.SP + 1) % 256 then ctx.stderr ++ [ "stack overflow" ] else ctx.stderr,
      PC := addr }
    ha hm0 hm1
    (by show (ctx.SP + 1) % 256 ≠ 0; omega)
    (by show (ctx.SP + 1) % 256 - 1 < 16; omega)
  refine ⟨_, _, h1, h2, ?_, ?_⟩
  · show (upd1 ctx.stack ctx.SP ctx.PC ((ctx.SP + 1) % 256 - 1) + 2) % 65536 = ctx.PC + 2
    rw [hmod, Nat.add_sub_cancel, upd1_same]
    exact Nat.mod_eq_of_lt (by omega)
  · show (ctx.SP + 1) % 256 - 1 = ctx.SP
    omega

set_option maxRecDepth 10000 in
/-- Witness for C5: the concrete program with `call 0x300` at 0x200 and
`ret` at 0x300. -/
theorem C5_call_ret_witness :
    ∃ c1 c2, exec_opcode callRetState = .ok c1 ∧ exec_opcode c1 = .ok c2 ∧
      c2.PC = callRetState.PC + 2 ∧ c2.SP = callRetState.SP :=
  C5_call_ret callRetState 0x300 (by decide) (by decide) (by decide) (by decide)
    (by decide) (by decide) (by decide)

/-! ### C4: subn (8xy7), corrected at X = 0xF -/

/-- C4 (amended): for every register indices X ≠ 0xF and Y and every 8-bit
register contents, `subn` sets Vx to Vy - Vx with 8-bit wraparound and VF to
1 exactly when Vy ≥ Vx(before); when X = 0xF the final write of the borrow
flag overwrites the subtraction result, so the stated Vx value does not hold
there. -/
theorem C4_subn_vf (ctx : ChipContext) (op X Y : Nat)
    (hfam : get_byte_0xF000 op = 8)
    (hn : get_byte_0x000F op = 7)
    (hX : get_byte_0x0F00 op = X)
    (hY : get_byte_0x00F0 op = Y)
    (hXF : X ≠ 0xF)
    (ha : ctx.registers X < 256) (hb : ctx.registers Y < 256) :
    ∃ ctx', execInstr ctx op = .ok ctx' ∧
      ctx'.registers X = (ctx.registers Y + 256 - ctx.registers X) % 256 ∧
      ctx'.registers 0xF = (if ctx.registers X ≤ ctx.registers Y then 1 else 0) ∧
      ctx'.PC = (ctx.PC + 2) % 65536 := by
  rw [execInstr_eq_fam8 _ _ hfam]
  simp only [execFam8, hX, hY, hn]
  norm_num
  refine ⟨?_, ?_⟩
  · rw [upd1_other _ _ _ hXF, upd1_same]
    unfold wsub8
    rw [Nat.mod_eq_of_lt ha]
  · rw [upd1_same]
    by_cases hYX : Y = X
    · subst hYX
      rw [upd1_same]
      simp
    · rw [upd1_same, upd1_other _ _ _ hYX]
      have hiff : (wsub8 (ctx.registers Y) (ctx.registers X) ≤ ctx.registers Y) ↔
          (ctx.registers X ≤ ctx.registers Y) := by
        unfold wsub8
        omega
      simp only [hiff]

/-- Counterexample for C4 as stated: with X = 0xF (so Vx is VF itself),
Y = 0, V0 = 7 and VF = 2, the claim predicts the final Vx value
(Vy - Vx) mod 256 = 5, but the code finishes with VF = 1: the borrow flag
write overwrites the subtraction result. -/
theorem C4_subn_vf_cex :
    regOf (execInstr subnState 0x8F07) 0xF = some 1 ∧
    regOf (execInstr subnState 0x8F07) 0xF ≠ some ((7 + 256 - 2) % 256) := by
  exact ⟨by decide, by decide⟩

/-- Witness for C4: the amended theorem applied at X = 1, Y = 0 on the
concrete state with V0 = 7. -/
theorem C4_subn_vf_witness :
    ∃ ctx', execInstr subnState 0x8107 = .ok ctx' ∧
      ctx'.registers 1 = (subnState.registers 0 + 256 - subnState.registers 1) % 256 ∧
      ctx'.registers 0xF = (if subnState.registers 1 ≤ subnState.registers 0 then 1 else 0) ∧
      ctx'.PC = (subnState.PC + 2) % 65536 :=
  C4_subn_vf subnState 0x8107 1 0 (by decide) (by decide) (by decide) (by decide)
    (by decide) (by decide) (by decide)

theorem updB_same (f : Nat → Bool) (i : Nat) (v : Bool) : updB f i v i = v := by
  simp [updB]

theorem scan_last (keys : Nat → Bool) : ∀ (m : Nat) (j : Nat), j < m → keys j = true →
    (∀ k, j < k → k < m → keys k = false) →
    (List.range m).foldl (fun acc i => if keys i then some i else acc) none = some j := by
  intro m
  induction m with
  | zero => intro j hj _ _; omega
  | succ n ih =>
      intro j hj hkey hmax
      rw [List.range_succ, List.foldl_append]
      simp only [List.foldl_cons, List.foldl_nil]
      by_cases hjn : j = n
      · subst hjn
        rw [hkey]
        simp
      · have hn : keys n = false := hmax n (by omega) (by omega)
        rw [hn]
        simp only [Bool.false_eq_true, if_false]
        exact ih j (by omega) hkey (fun k h1 h2 => hmax k h1 (by omega))

theorem waitKeyScan_eq (keys : Nat → Bool) (j : Nat) (hj : j < 16)
    (hkey : keys j = true) (hmax : ∀ k, j < k → k < 16 → keys k = false) :
    waitKeyScan keys = some j := by
  unfold waitKeyScan
  exact scan_last keys 16 j hj hkey hmax

/-! ### C6: wait-key (Fx0A), corrected: last set index, not first -/

/-- C6 (amended): when at least one input flag is set, the wait-key
instruction completes, stores in Vx the last (highest) set input flag index
(the scan loop has no break, so later set flags overwrite earlier ones), and
advances PC by 2. -/
theorem C6_wait_key (ctx : ChipContext) (op X j : Nat)
    (hfam : get_byte_0xF000 op = 0xF)
    (hkk : get_bytes_0x00FF op = 0x0A)
    (hX : get_byte_0x0F00 op = X)
    (hj : j < 16) (hkey : ctx.keyboard_keys j = true)
    (hmax : ∀ k < 16, j < k → ctx.keyboard_keys k = false) :
    ∃ ctx', execInstr ctx op = .ok ctx' ∧
      ctx'.registers X = j ∧ ctx'.PC = (ctx.PC + 2) % 65536 := by
  rw [execInstr_eq_famF _ _ hfam]
  simp only [execFamF, hX, hkk]
  norm_num
  rw [waitKeyScan_eq ctx.keyboard_keys j hj hkey (fun k h1 h2 => hmax k h2 h1)]
  exact ⟨_, rfl, upd1_same _ _ _, rfl⟩

/-- Counterexample for C6 as stated: with key flags 2 and 5 both set, the
claim predicts Vx = 2 (the first set index); the code stores Vx = 5 (the
last set index). -/
theorem C6_wait_key_cex :
    regOf (execInstr twoKeysState 0xF00A) 0 = some 5 ∧
    regOf (execInstr twoKeysState 0xF00A) 0 ≠ some 2 := by
  exact ⟨by decide, by decide⟩

/-- Witness for C6: the amended theorem applied at the concrete two-key
state. -/
theorem C6_wait_key_witness :
    ∃ ctx', execInstr twoKeysState 0xF00A = .ok ctx' ∧
      ctx'.registers 0 = 5 ∧ ctx'.PC = (twoKeysState.PC + 2) % 65536 :=
  C6_wait_key twoKeysState 0xF00A 0 5 (by decide) (by decide) (by decide)
    (by decide) (by decide) (by decide)

/-! ### C7: unrecognized sub-opcodes, corrected: the PC policy is not uniform -/

/-- C7 (amended): an unrecognized sub-opcode within families 0x0, 0x8, 0xE,
0xF is non-fatal (the diagnostic is logged and execution continues), but the
PC policy is not uniform: families 0x8, 0xE and 0xF advance PC by 2 while
family 0x0 leaves PC unchanged. -/
theorem C7_unrecognized_policy :
    (∀ (ctx : ChipContext) (op : Nat), get_byte_0xF000 op = 0 →
      get_bytes_0x00FF op ≠ 0xE0 → get_bytes_0x00FF op ≠ 0xEE →
      execInstr ctx op = .ok { ctx with
        stderr := ctx.stderr ++ [ "non existing 0x0xxx opcode" ] }) ∧
    (∀ (ctx : ChipContext) (op : Nat), get_byte_0xF000 op = 8 →
      7 < get_byte_0x000F op → get_byte_0x000F op ≠ 0xE →
      execInstr ctx op = .ok { ctx with
        stderr := ctx.stderr ++ [ "Non existing 0x8xxx opcode" ],
        PC := (ctx.PC + 2) % 65536 }) ∧
    (∀ (ctx : ChipContext) (op : Nat), get_byte_0xF000 op = 0xE →
      get_bytes_0x00FF op ≠ 0x9E → get_bytes_0x00FF op ≠ 0xA1 →
      execInstr ctx op = .ok { ctx with
        stderr := ctx.stderr ++ [ "non existing 0xExxx opcode" ],
        PC := (ctx.PC + 2) % 65536 }) ∧
    (∀ (ctx : ChipContext) (op : Nat), get_byte_0xF000 op = 0xF →
      get_bytes_0x00FF op ≠ 0x07 → get_bytes_0x00FF op ≠ 0x0A →
      get_bytes_0x00FF op ≠ 0x15 → get_bytes_0x00FF op ≠ 0x18 →
      get_bytes_0x00FF op ≠ 0x1E → get_bytes_0x00FF op ≠ 0x29 →
      get_bytes_0x00FF op ≠ 0x33 → get_bytes_0x00FF op ≠ 0x55 →
      get_bytes_0x00FF op ≠ 0x65 →
      execInstr ctx op = .ok { ctx with
        stderr := ctx.stderr ++ [ "non existing 0xFxxx opcode" ],
        PC := (ctx.PC + 2) % 65536 }) := by
  refine ⟨?_, ?_, ?_, ?_⟩
  · intro ctx op hfam h1 h2
    rw [execInstr_eq_fam0 _ _ hfam]
    unfold execFam0
    rw [if_neg h1, if_neg h2]
  · intro ctx op hfam h1 h2
    rw [execInstr_eq_fam8 _ _ hfam]
    unfold execFam8
    have hne : ∀ m : Nat, m ≤ 7 → ¬ get_byte_0x000F op = m := by
      intro m hm he
      omega
    rw [if_neg (hne 0 (by norm_num)), if_neg (hne 1 (by norm_num)),
      if_neg (hne 2 (by norm_num)), if_neg (hne 3 (by norm_num)),
      if_neg (hne 4 (by norm_num)), if_neg (hne 5 (by norm_num)),
      if_neg (hne 6 (by norm_num)), if_neg (hne 7 (by norm_num)), if_neg h2]
  · intro ctx op hfam h1 h2
    rw [execInstr_eq_famE _ _ hfam]
    unfold execFamE
    rw [if_neg h1, if_neg h2]
  · intro ctx op hfam h1 h2 h3 h4 h5 h6 h7 h8 h9
    rw [execInstr_eq_famF _ _ hfam]
    unfold execFamF
    rw [if_neg h1, if_neg h2, if_neg h3, if_neg h4, if_neg h5, if_neg h6,
      if_neg h7, if_neg h8, if_neg h9]

/-- Counterexample for C7 as stated: from PC = 0x200, the unrecognized
family-0 word `00FF` leaves PC at 0x200 while the unrecognized family-8 word
`8008` advances PC to 0x202 — two different PC policies. -/
theorem C7_unrecognized_policy_cex :
    pcOf (exec_opcode unrec0State) = some 0x200 ∧
    pcOf (exec_opcode unrec8State) = some 0x202 ∧
    pcOf (exec_opcode unrec0State) ≠ pcOf (exec_opcode unrec8State) := by
  exact ⟨by decide, by decide, by decide⟩

/-- Witness for C7: all four family cases applied at concrete opcodes. -/
theorem C7_unrecognized_policy_witness :
    execInstr reset 0x00FF = .ok { reset with
      stderr := reset.stderr ++ [ "non existing 0x0xxx opcode" ] } ∧
    execInstr reset 0x8008 = .ok { reset with
      stderr := reset.stderr ++ [ "Non existing 0x8xxx opcode" ],
      PC := (reset.PC + 2) % 65536 } ∧
    execInstr reset 0xE000 = .ok { reset with
      stderr := reset.stderr ++ [ "non existing 0xExxx opcode" ],
      PC := (reset.PC + 2) % 65536 } ∧
    execInstr reset 0xF0FF = .ok { reset with
      stderr := reset.stderr ++ [ "non existing 0xFxxx opcode" ],
      PC := (reset.PC + 2) % 65536 } :=
  ⟨C7_unrecognized_policy.1 reset 0x00FF (by decide) (by decide) (by decide),
   C7_unrecognized_policy.2.1 reset 0x8008 (by decide) (by decide) (by decide),
   C7_unrecognized_policy.2.2.1 reset 0xE000 (by decide) (by decide) (by decide),
   C7_unrecognized_policy.2.2.2 reset 0xF0FF (by decide) (by decide) (by decide)
     (by decide) (by decide) (by decide) (by decide) (by decide) (by decide) (by decide)⟩

/-! ### C8: redraw signal, corrected: set by jump only, not by clear or draw -/

/-- C8 (amended): neither the clear-display instruction nor the draw
instruction sets the redraw signal (both leave `draw_flag` unchanged); the
unconditional jump `1nnn` is the instruction that sets it to true. -/
theorem C8_redraw_signal :
    (∀ (ctx : ChipContext) (op : Nat), get_byte_0xF000 op = 0 →
      get_bytes_0x00FF op = 0xE0 →
      ∃ c', execInstr ctx op = .ok c' ∧ c'.draw_flag = ctx.draw_flag) ∧
    (∀ (ctx : ChipContext) (op : Nat) (c' : ChipContext), get_byte_0xF000 op = 0xD →
      execInstr ctx op = .ok c' → c'.draw_flag = ctx.draw_flag) ∧
    (∀ (ctx : ChipContext) (op : Nat), get_byte_0xF000 op = 1 →
      ∃ c', execInstr ctx op = .ok c' ∧ c'.draw_flag = true) := by
  refine ⟨?_, ?_, ?_⟩
  · intro ctx op hfam hkk
    rw [execInstr_eq_fam0 _ _ hfam]
    unfold execFam0
    rw [if_pos hkk]
    exact ⟨_, rfl, rfl⟩
  · intro ctx op c' hfam hok
    rw [execInstr_eq_famD _ _ hfam] at hok
    simp only [execFamD] at hok
    split at hok
    · injection hok with h
      subst h
      rfl
    · exact Except.noConfusion hok
  · intro ctx op hfam
    rw [execInstr_eq_jump _ _ hfam]
    exact ⟨_, rfl, rfl⟩

/-- Counterexample for C8 as stated: executing clear-display and draw from
reset-loaded states leaves the redraw signal false — neither sets it. -/
theorem C8_redraw_signal_cex :
    flagOf (exec_opcode clsState) = some false ∧
    flagOf (exec_opcode drawState) = some false := by
  exact ⟨by decide, by decide⟩

/-- Witness for C8: the clear and jump cases applied at concrete opcodes,
and the draw case applied at the concrete draw state. -/
theorem C8_redraw_signal_witness :
    (∃ c', execInstr reset 0x00E0 = .ok c' ∧ c'.draw_flag = reset.draw_flag) ∧
    ((okOr reset (execInstr drawState 0xD001)).draw_flag = drawState.draw_flag) ∧
    (∃ c', execInstr reset 0x1200 = .ok c' ∧ c'.draw_flag = true) :=
  ⟨C8_redraw_signal.1 reset 0x00E0 (by decide) (by decide),
   C8_redraw_signal.2.1 drawState 0xD001 (okOr reset (execInstr drawState 0xD001))
     (by decide) rfl,
   C8_redraw_signal.2.2 reset 0x1200 (by decide)⟩

/-! ### C10: the two key-reading semantics are inconsistent -/

/-- C10: `Ex9E` (skip-key-down), when it finds input flag Vx set, clears
that flag to false after the successful check (one-shot pressed-edge
semantics, and it skips: PC advances by 4 in total), whereas `ExA1`
(skip-key-up) and `Fx0A` (wait-key) read the input flags without ever
modifying them — the two key-reading semantics coexist inconsistently. -/
theorem C10_key_semantics :
    (∀ (ctx : ChipContext) (op X : Nat), get_byte_0xF000 op = 0xE →
      get_bytes_0x00FF op = 0x9E → get_byte_0x0F00 op = X →
      ctx.registers X < 16 → ctx.keyboard_keys (ctx.registers X) = true →
      ∃ c', execInstr ctx op = .ok c' ∧
        c'.keyboard_keys (ctx.registers X) = false ∧
        c'.PC = (ctx.PC + 4) % 65536) ∧
    (∀ (ctx : ChipContext) (op X : Nat), get_byte_0xF000 op = 0xE →
      get_bytes_0x00FF op = 0xA1 → get_byte_0x0F00 op = X →
      ctx.registers X < 16 →
      ∃ c', execInstr ctx op = .ok c' ∧
        c'.keyboard_keys = ctx.keyboard_keys) ∧
    (∀ (ctx : ChipContext) (op X j : Nat), get_byte_0xF000 op = 0xF →
      get_bytes_0x00FF op = 0x0A → get_byte_0x0F00 op = X →
      j < 16 → ctx.keyboard_keys j = true →
      (∀ k < 16, j < k → ctx.keyboard_keys k = false) →
      ∃ c', execInstr ctx op = .ok c' ∧
        c'.keyboard_keys = ctx.keyboard_keys) := by
  refine ⟨?_, ?_, ?_⟩
  · intro ctx op X hfam hkk hX hlt hkey
    rw [execInstr_eq_famE _ _ hfam]
    simp only [execFamE, hX, hkk]
    norm_num
    rw [if_pos hlt, hkey]
    simp only [if_true]
    refine ⟨_, rfl, updB_same _ _ _, ?_⟩
    show (ctx.PC + 2 + 2) % 65536 = (ctx.PC + 4) % 65536
    omega
  · intro ctx op X hfam hkk hX hlt
    rw [execInstr_eq_famE _ _ hfam]
    simp only [execFamE, hX, hkk]
    norm_num
    rw [if_pos hlt]
    cases hk : ctx.keyboard_keys (ctx.registers X) <;> simp [hk]
  · intro ctx op X j hfam hkk hX hj hkey hmax
    rw [execInstr_eq_famF _ _ hfam]
    simp only [execFamF, hX, hkk]
    norm_num
    rw [waitKeyScan_eq ctx.keyboard_keys j hj hkey (fun k h1 h2 => hmax k h2 h1)]
    exact ⟨_, rfl, rfl⟩

/-- Witness for C10: the three parts applied at concrete states — key 0
pressed for `E09E`, reset (no key) for `E0A1`, and keys 2 and 5 for
`F00A`. -/
theorem C10_key_semantics_witness :
    (∃ c', execInstr oneKeyState 0xE09E = .ok c' ∧
      c'.keyboard_keys (oneKeyState.registers 0) = false ∧
      c'.PC = (oneKeyState.PC + 4) % 65536) ∧
    (∃ c', execInstr reset 0xE0A1 = .ok c' ∧
      c'.keyboard_keys = reset.keyboard_keys) ∧
    (∃ c', execInstr twoKeysState 0xF10A = .ok c' ∧
      c'.keyboard_keys = twoKeysState.keyboard_keys) :=
  ⟨C10_key_semantics.1 oneKeyState 0xE09E 0 (by decide) (by decide) (by decide)
     (by decide) (by decide),
   C10_key_semantics.2.1 reset 0xE0A1 0 (by decide) (by decide) (by decide) (by decide),
   C10_key_semantics.2.2 twoKeysState 0xF10A 1 5 (by decide) (by decide) (by decide)
     (by decide) (by decide) (by decide)⟩

theorem col_inj (x : Nat) {c c' : Nat} (hc : c < 8) (hc' : c' < 8)
    (h : (x + c) % 64 = (x + c') % 64) : c = c' := by
  omega

theorem row_inj (y : Nat) {r r' : Nat} (hr : r < 32) (hr' : r' < 32)
    (h : (y + r) % 32 = (y + r') % 32) : r = r' := by
  omega

theorem drawRow_spec (pixel x yc : Nat) :
    ∀ (cols : List Nat) (fb : Nat → Nat → Nat) (vf : Nat),
      cols.Nodup → (∀ c ∈ cols, c < 8) →
      ∃ fb' vf', drawRow pixel x yc cols fb vf = (fb', vf') ∧
        (∀ c ∈ cols, pixel &&& (0x80 >>> c) ≠ 0 →
          fb' ((x + c) % 64) yc = fb ((x + c) % 64) yc ^^^ 1) ∧
        (∀ a b, (∀ c ∈ cols, pixel &&& (0x80 >>> c) ≠ 0 →
            ¬(a = (x + c) % 64 ∧ b = yc)) →
          fb' a b = fb a b) ∧
        (vf' = vf ∨ vf' = 1) ∧
        (vf' = 1 ↔ vf = 1 ∨ ∃ c ∈ cols, pixel &&& (0x80 >>> c) ≠ 0 ∧
          fb ((x + c) % 64) yc = 1) := by
  intro cols
  induction cols with
  | nil =>
      intro fb vf _ _
      refine ⟨fb, vf, rfl, ?_, ?_, Or.inl rfl, ?_⟩
      · intro c hc
        exact absurd hc (List.not_mem_nil c)
      · intro a b _
        rfl
      · simp
  | cons c cs ih =>
      intro fb vf hnd hlt
      have hndcs : cs.Nodup := (List.nodup_cons.mp hnd).2
      have hcnotin : c ∉ cs := (List.nodup_cons.mp hnd).1
      have hc8 : c < 8 := hlt c (List.mem_cons_self c cs)
      have hltcs : ∀ u ∈ cs, u < 8 := fun u hu => hlt u (List.mem_cons_of_mem c hu)
      by_cases hbit : pixel &&& (0x80 >>> c) ≠ 0
      · obtain ⟨fb', vf', heq, hp1, hp2, hp3, hp4⟩ :=
          ih (upd2 fb ((x + c) % 64) yc (fb ((x + c) % 64) yc ^^^ 1))
             (if fb ((x + c) % 64) yc = 1 then 1 else vf) hndcs hltcs
        have hne : ∀ u ∈ cs, ¬((x + u) % 64 = (x + c) % 64) := by
          intro u hu h
          exact hcnotin (col_inj x hc8 (hltcs u hu) h.symm ▸ hu)
        refine ⟨fb', vf', ?_, ?_, ?_, ?_, ?_⟩
        · simp only [drawRow, if_pos hbit]
          exact heq
        · intro c' hmem hbit'
          rcases List.mem_cons.mp hmem with rfl | hcs
          · have huntouched : ∀ u ∈ cs, pixel &&& (0x80 >>> u) ≠ 0 →
                ¬((x + c') % 64 = (x + u) % 64 ∧ yc = yc) := by
              intro u hu _ h
              exact hne u hu h.1.symm
            rw [hp2 _ _ huntouched, upd2_same]
          · rw [hp1 c' hcs hbit',
              upd2_other _ _ _ _ (by
                intro h
                exact hne c' hcs h.1)]
        · intro a b hunt
          have h1 : fb' a b = upd2 fb ((x + c) % 64) yc (fb ((x + c) % 64) yc ^^^ 1) a b :=
            hp2 a b (fun u hu hbu => hunt u (List.mem_cons_of_mem c hu) hbu)
          rw [h1, upd2_other _ _ _ _ (hunt c (List.mem_cons_self c cs) hbit)]
        · rcases hp3 with h | h
          · by_cases hpx : fb ((x + c) % 64) yc = 1
            · right
              rw [h, if_pos hpx]
            · left
              rw [h, if_neg hpx]
          · right
            exact h
        · have hEx : (∃ u ∈ cs, pixel &&& (0x80 >>> u) ≠ 0 ∧
              upd2 fb ((x + c) % 64) yc (fb ((x + c) % 64) yc ^^^ 1) ((x + u) % 64) yc = 1) ↔
              (∃ u ∈ cs, pixel &&& (0x80 >>> u) ≠ 0 ∧ fb ((x + u) % 64) yc = 1) := by
            constructor
            · rintro ⟨u, hu, hb, hfb⟩
              rw [upd2_other _ _ _ _ (fun h => hne u hu h.1)] at hfb
              exact ⟨u, hu, hb, hfb⟩
            · rintro ⟨u, hu, hb, hfb⟩
              refine ⟨u, hu, hb, ?_⟩
              rw [upd2_other _ _ _ _ (fun h => hne u hu h.1)]
              exact hfb
          rw [hp4, hEx]
          constructor
          · rintro (h1 | ⟨u, hu, hb, hfb⟩)
            · by_cases hpx : fb ((x + c) % 64) yc = 1
              · right
                exact ⟨c, List.mem_cons_self c cs, hbit, hpx⟩
              · left
                rw [if_neg hpx] at h1
                exact h1
            · right
              exact ⟨u, List.mem_cons_of_mem c hu, hb, hfb⟩
          · rintro (h1 | ⟨u, hu, hb, hfb⟩)
            · left
              by_cases hpx : fb ((x + c) % 64) yc = 1
              · rw [if_pos hpx]
              · rw [if_neg hpx]
                exact h1
            · rcases List.mem_cons.mp hu with rfl | hucs
              · left
                rw [if_pos hfb]
              · right
                exact ⟨u, hucs, hb, hfb⟩
      · obtain ⟨fb', vf', heq, hp1, hp2, hp3, hp4⟩ := ih fb vf hndcs hltcs
        refine ⟨fb', vf', ?_, ?_, ?_, hp3, ?_⟩
        · simp only [drawRow, if_neg hbit]
          exact heq
        · intro c' hmem hbit'
          rcases List.mem_cons.mp hmem with rfl | hcs
          · exact absurd hbit' hbit
          · exact hp1 c' hcs hbit'
        · intro a b hunt
          exact hp2 a b (fun u hu hbu => hunt u (List.mem_cons_of_mem c hu) hbu)
        · rw [hp4]
          constructor
          · rintro (h1 | ⟨u, hu, hb, hfb⟩)
            · left; exact h1
            · right; exact ⟨u, List.mem_cons_of_mem c hu, hb, hfb⟩
          · rintro (h1 | ⟨u, hu, hb, hfb⟩)
            · left; exact h1
            · rcases List.mem_cons.mp hu with rfl | hucs
              · exact absurd hb hbit
              · right; exact ⟨u, hucs, hb, hfb⟩

theorem drawRowsGo_spec (mem : Nat → Nat) (Iv x y : Nat) :
    ∀ (rows : List Nat) (fb : Nat → Nat → Nat) (vf : Nat),
      rows.Nodup → (∀ r ∈ rows, r < 32) → (∀ r ∈ rows, Iv + r < 4096) →
      ∃ fb' vf', drawRowsGo mem Iv x y rows fb vf = .ok (fb', vf') ∧
        (∀ r ∈ rows, ∀ c, c < 8 → mem (Iv + r) &&& (0x80 >>> c) ≠ 0 →
          fb' ((x + c) % 64) ((y + r) % 32) = fb ((x + c) % 64) ((y + r) % 32) ^^^ 1) ∧
        (∀ a b, (∀ r ∈ rows, ∀ c, c < 8 → mem (Iv + r) &&& (0x80 >>> c) ≠ 0 →
            ¬(a = (x + c) % 64 ∧ b = (y + r) % 32)) →
          fb' a b = fb a b) ∧
        (vf' = vf ∨ vf' = 1) ∧
        (vf' = 1 ↔ vf = 1 ∨ ∃ r ∈ rows, ∃ c, c < 8 ∧ mem (Iv + r) &&& (0x80 >>> c) ≠ 0 ∧
          fb ((x + c) % 64) ((y + r) % 32) = 1) := by
  intro rows
  induction rows with
  | nil =>
      intro fb vf _ _ _
      refine ⟨fb, vf, rfl, ?_, ?_, Or.inl rfl, ?_⟩
      · intro r hr
        exact absurd hr (List.not_mem_nil r)
      · intro a b _
        rfl
      · simp
  | cons r rs ih =>
      intro fb vf hnd hlt32 hltm
      have hndrs : rs.Nodup := (List.nodup_cons.mp hnd).2
      have hrnotin : r ∉ rs := (List.nodup_cons.mp hnd).1
      have hr32 : r < 32 := hlt32 r (List.mem_cons_self r rs)
      have hlt32rs : ∀ u ∈ rs, u < 32 := fun u hu => hlt32 u (List.mem_cons_of_mem r hu)
      have hltmrs : ∀ u ∈ rs, Iv + u < 4096 := fun u hu => hltm u (List.mem_cons_of_mem r hu)
      have hmem4096 : Iv + r < 4096 := hltm r (List.mem_cons_self r rs)
      have hmod65 : (Iv + r) % 65536 = Iv + r := Nat.mod_eq_of_lt (by omega)
      have hbandne : ∀ u ∈ rs, ¬((y + u) % 32 = (y + r) % 32) := by
        intro u hu h
        exact hrnotin (row_inj y (hlt32rs u hu) hr32 h ▸ hu)
      obtain ⟨fb1, vf1, heq1, q1, q2, q3, q4⟩ :=
        drawRow_spec (mem (Iv + r)) x ((y + r) % 32) (List.range 8) fb vf
          (List.nodup_range 8) (fun u hu => List.mem_range.mp hu)
      obtain ⟨fb', vf', heq2, p1, p2, p3, p4⟩ := ih fb1 vf1 hndrs hlt32rs hltmrs
      refine ⟨fb', vf', ?_, ?_, ?_, ?_, ?_⟩
      · simp only [drawRowsGo, hmod65, if_pos hmem4096, heq1]
        exact heq2
      · intro r' hmem c hc8 hbit
        rcases List.mem_cons.mp hmem with rfl | hrs
        · have huntouched : ∀ u ∈ rs, ∀ c', c' < 8 → mem (Iv + u) &&& (0x80 >>> c') ≠ 0 →
              ¬((x + c) % 64 = (x + c') % 64 ∧ (y + r') % 32 = (y + u) % 32) := by
            intro u hu c' _ _ h
            exact hbandne u hu h.2.symm
          rw [p2 _ _ huntouched, q1 c (List.mem_range.mpr hc8) hbit]
        · rw [p1 r' hrs c hc8 hbit,
            q2 _ _ (by
              intro u hu _ h
              exact hbandne r' hrs h.2)]
      · intro a b hunt
        have h1 : fb' a b = fb1 a b :=
          p2 a b (fun u hu c' hc' hbu => hunt u (List.mem_cons_of_mem r hu) c' hc' hbu)
        rw [h1]
        exact q2 a b (fun u hu hbu =>
          hunt r (List.mem_cons_self r rs) u (List.mem_range.mp hu) hbu)
      · rcases p3 with h | h
        · rcases q3 with h' | h'
          · left
            rw [h, h']
          · right
            rw [h, h']
        · right
          exact h
      · have hEx : (∃ u ∈ rs, ∃ c, c < 8 ∧ mem (Iv + u) &&& (0x80 >>> c) ≠ 0 ∧
            fb1 ((x + c) % 64) ((y + u) % 32) = 1) ↔
            (∃ u ∈ rs, ∃ c, c < 8 ∧ mem (Iv + u) &&& (0x80 >>> c) ≠ 0 ∧
            fb ((x + c) % 64) ((y + u) % 32) = 1) := by
          constructor
          · rintro ⟨u, hu, c, hc8, hb, hfb⟩
            rw [q2 _ _ (fun u' hu' _ h => hbandne u hu h.2)] at hfb
            exact ⟨u, hu, c, hc8, hb, hfb⟩
          · rintro ⟨u, hu, c, hc8, hb, hfb⟩
            refine ⟨u, hu, c, hc8, hb, ?_⟩
            rw [q2 _ _ (fun u' hu' _ h => hbandne u hu h.2)]
            exact hfb
        rw [p4, hEx]
        have hq4 : vf1 = 1 ↔ vf = 1 ∨ ∃ c, c < 8 ∧ mem (Iv + r) &&& (0x80 >>> c) ≠ 0 ∧
            fb ((x + c) % 64) ((y + r) % 32) = 1 := by
          rw [q4]
          constructor
          · rintro (h1 | ⟨u, hu, hb, hfb⟩)
            · left; exact h1
            · right; exact ⟨u, List.mem_range.mp hu, hb, hfb⟩
          · rintro (h1 | ⟨u, hu, hb, hfb⟩)
            · left; exact h1
            · right; exact ⟨u, List.mem_range.mpr hu, hb, hfb⟩
        rw [hq4]
        constructor
        · rintro ((h1 | ⟨c, hc8, hb, hfb⟩) | ⟨u, hu, c, hc8, hb, hfb⟩)
          · left; exact h1
          · right; exact ⟨r, List.mem_cons_self r rs, c, hc8, hb, hfb⟩
          · right; exact ⟨u, List.mem_cons_of_mem r hu, c, hc8, hb, hfb⟩
        · rintro (h1 | ⟨u, hu, c, hc8, hb, hfb⟩)
          · left; left; exact h1
          · rcases List.mem_cons.mp hu with rfl | hurs
            · left; right; exact ⟨c, hc8, hb, hfb⟩
            · right; exact ⟨u, hurs, c, hc8, hb, hfb⟩

/-! ### C1: draw instruction XOR and collision semantics -/

/-- C1: for every draw instruction Dxyn with origin registers Vx, Vy and
height n whose n sprite bytes at I lie in memory: each set sprite bit XORs
the destination pixel ((Vx+column) mod 64, (Vy+row) mod 32) with 1 and all
other pixels are unchanged; VF ends at 1 exactly when at least one
destination pixel of a set sprite bit was 1 immediately before its XOR
(sticky for the rest of the call even if later bits do not collide); and
when no collision occurs VF ends 0 even if it was nonzero before, showing it
is reset before any sprite bit is processed. -/
theorem C1_draw_collision (ctx : ChipContext) (op X Y n : Nat)
    (hfam : get_byte_0xF000 op = 0xD)
    (hX : get_byte_0x0F00 op = X) (hY : get_byte_0x00F0 op = Y)
    (hn : get_byte_0x000F op = n)
    (hmem : ctx.I + n ≤ 4096) :
    ∃ ctx', execInstr ctx op = .ok ctx' ∧
      (∀ r, r < n → ∀ c, c < 8 → ctx.memory (ctx.I + r) &&& (0x80 >>> c) ≠ 0 →
        ctx'.frame_buffer ((ctx.registers X + c) % 64) ((ctx.registers Y + r) % 32) =
          ctx.frame_buffer ((ctx.registers X + c) % 64) ((ctx.registers Y + r) % 32) ^^^ 1) ∧
      (∀ a b, (∀ r, r < n → ∀ c, c < 8 → ctx.memory (ctx.I + r) &&& (0x80 >>> c) ≠ 0 →
          ¬(a = (ctx.registers X + c) % 64 ∧ b = (ctx.registers Y + r) % 32)) →
        ctx'.frame_buffer a b = ctx.frame_buffer a b) ∧
      (ctx'.registers 0xF = 1 ↔ ∃ r, r < n ∧ ∃ c, c < 8 ∧
        ctx.memory (ctx.I + r) &&& (0x80 >>> c) ≠ 0 ∧
        ctx.frame_buffer ((ctx.registers X + c) % 64) ((ctx.registers Y + r) % 32) = 1) ∧
      ((¬ ∃ r, r < n ∧ ∃ c, c < 8 ∧ ctx.memory (ctx.I + r) &&& (0x80 >>> c) ≠ 0 ∧
        ctx.frame_buffer ((ctx.registers X + c) % 64) ((ctx.registers Y + r) % 32) = 1) →
        ctx'.registers 0xF = 0) ∧
      ctx'.PC = (ctx.PC + 2) % 65536 := by
  have hn15 : n ≤ 15 := by
    rw [← hn]
    unfold get_byte_0x000F
    exact Nat.and_le_right
  obtain ⟨fb', vf', heq, p1, p2, p3, p4⟩ :=
    drawRowsGo_spec ctx.memory ctx.I (ctx.registers X) (ctx.registers Y) (List.range n)
      ctx.frame_buffer 0 (List.nodup_range n)
      (fun u hu => by have := List.mem_range.mp hu; omega)
      (fun u hu => by have := List.mem_range.mp hu; omega)
  have hvf : vf' = 1 ↔ ∃ r, r < n ∧ ∃ c, c < 8 ∧
      ctx.memory (ctx.I + r) &&& (0x80 >>> c) ≠ 0 ∧
      ctx.frame_buffer ((ctx.registers X + c) % 64) ((ctx.registers Y + r) % 32) = 1 := by
    rw [p4]
    constructor
    · rintro (h | ⟨u, hu, c, hc, hb, hfb⟩)
      · exact absurd h (by omega)
      · exact ⟨u, List.mem_range.mp hu, c, hc, hb, hfb⟩
    · rintro ⟨u, hu, c, hc, hb, hfb⟩
      right
      exact ⟨u, List.mem_range.mpr hu, c, hc, hb, hfb⟩
  have hvf0 : (¬ ∃ r, r < n ∧ ∃ c, c < 8 ∧
      ctx.memory (ctx.I + r) &&& (0x80 >>> c) ≠ 0 ∧
      ctx.frame_buffer ((ctx.registers X + c) % 64) ((ctx.registers Y + r) % 32) = 1) →
      vf' = 0 := by
    intro hnc
    rcases p3 with h | h
    · exact h
    · exact absurd (hvf.mp h) hnc
  refine ⟨{ ctx with
    frame_buffer := fb',
    registers := upd1 ctx.registers 0xF vf',
    PC := (ctx.PC + 2) % 65536 }, ?_, ?_, ?_, ?_, ?_, rfl⟩
  · rw [execInstr_eq_famD _ _ hfam]
    simp only [execFamD, hX, hY, hn, heq]
  · intro r hr c hc hbit
    exact p1 r (List.mem_range.mpr hr) c hc hbit
  · intro a b hunt
    exact p2 a b (fun u hu c hc hbu => hunt u (List.mem_range.mp hu) c hc hbu)
  · exact hvf
  · exact hvf0

/-- Witness for C1: a concrete one-byte draw (`D001`, sprite byte 0xF0 from
the font area at I = 0x50) succeeds; the hypotheses of the theorem hold
there. -/
theorem C1_draw_collision_witness :
    drawState.I + 1 ≤ 4096 ∧ ∃ ctx', execInstr drawState 0xD001 = .ok ctx' := by
  refine ⟨by decide, ?_⟩
  obtain ⟨c, h, -⟩ := C1_draw_collision drawState 0xD001 0 0 1 (by decide) (by decide)
    (by decide) (by decide) (by decide)
  exact ⟨c, h⟩
